import Mathlib

/-!
Verification of the code-analysis engine of the Taggle backend
(`backend/app/services/code_analyzer.py` and
`backend/app/utils/language_adapter.py`).

Source text is modelled as `List Char` (Python `str`).  Python floats are
modelled by `ℚ`; the float rounding of literals such as `0.3` does not
affect any property proved here (all claims are either order/bound facts
robust under exact arithmetic, or equalities between expressions computed
the same way on both sides).  Python regular-expression calls are embedded
as hand-written scanners; each scanner carries a comment arguing that it
computes exactly what `re.findall`/`re.search` computes on the concrete
pattern it embeds (all the patterns used by the source are simple enough
that the backtracking engine behaves deterministically).  `\w`, `\s` and
`str.lower()` are modelled at ASCII precision, which is the precision at
which every pattern and alias in the source is written.
-/

namespace Taggle

/-! ### Character classes and basic string operations -/

/-- Python regex `\s` (and the default `str.strip()` class), ASCII part. -/
def isPySpace (c : Char) : Bool :=
  c = ' ' || c = '\t' || c = '\n' || c = '\r' || c = '\x0b' || c = '\x0c'

/-- Python regex `\w`, ASCII part: letters, digits, underscore. -/
def isWordChar (c : Char) : Bool :=
  c.isAlpha || c.isDigit || c = '_'

/-- Python `str.split(sep)` for a one-character separator: splits at every
occurrence, keeping empty pieces; the result is never empty. -/
def splitOnChar (sep : Char) : List Char → List (List Char)
  | [] => [[]]
  | c :: cs =>
    if c = sep then [] :: splitOnChar sep cs
    else
      match splitOnChar sep cs with
      | [] => [[c]]
      | l :: ls => (c :: l) :: ls

/-- Python `code.split("\n")`. -/
def splitLines (code : List Char) : List (List Char) :=
  splitOnChar '\n' code

/-- Python `str.strip()` with no argument (whitespace both ends). -/
def pyStrip (l : List Char) : List Char :=
  ((l.dropWhile isPySpace).reverse.dropWhile isPySpace).reverse

/-- Python `sub in s` for strings (substring containment). -/
def containsSub (p : List Char) : List Char → Bool
  | [] => p.isEmpty
  | c :: cs => p.isPrefixOf (c :: cs) || containsSub p cs

/-! ### Keyword counting (`re.findall` embeddings)

`len(re.findall(r"\bKW\b", code, re.IGNORECASE))` for an alphabetic
keyword `KW`: a match is a position where `KW` occurs case-insensitively
with a non-word character (or a string end) on each side.  Two such
positions can never overlap (the second would have to start inside the
first keyword occurrence, where the preceding character is a word
character), so the number of non-overlapping matches found by `findall`
equals the number of match positions, which is what `countWordAux`
counts in one pass, tracking whether the previous character was a word
character. -/

/-- Match `kw` case-insensitively at the head, returning the rest. -/
def matchKeyword : List Char → List Char → Option (List Char)
  | [], rest => some rest
  | _ :: _, [] => none
  | k :: ks, c :: cs => if c.toLower = k then matchKeyword ks cs else none

/-- The `\b` after the keyword: next character absent or not a word char. -/
def atWordBreak : List Char → Bool
  | [] => true
  | c :: _ => !isWordChar c

def countWordAux (kw : List Char) : Bool → List Char → Nat
  | _, [] => 0
  | prevIsWord, c :: cs =>
    let hit :=
      !prevIsWord &&
        (match matchKeyword kw (c :: cs) with
         | some rest => atWordBreak rest
         | none => false)
    (if hit then 1 else 0) + countWordAux kw (isWordChar c) cs

/-- `len(re.findall(r"\bKW\b", code, re.IGNORECASE))` for keyword `kw`
(given in lowercase).  At the start of the string there is no previous
character, hence `prevIsWord = false`. -/
def countWord (kw : List Char) (code : List Char) : Nat :=
  countWordAux kw false code

/-- Does the line contain a `?` with a `:` somewhere after it?
`re.findall(r"\?.*:", code)`: `.` does not cross `\n`, so every match is
inside one line; within a line the greedy `.*` extends the (unique,
leftmost) match from the first `?` that has a later `:` up to the last
`:` of the line, after which no `:` remains, so each line contributes
exactly one match when it has a `?` followed by a `:` and none
otherwise. -/
def lineHasTernary : List Char → Bool
  | [] => false
  | c :: cs => (c = '?' && cs.contains ':') || lineHasTernary cs

/-- `len(re.findall(r"\?.*:", code))`. -/
def ternaryCount (code : List Char) : Nat :=
  ((splitLines code).filter lineHasTernary).length

/-! ### MetricCalculator (`CodeAnalyzer._calculate_*`) -/

/-- The per-pattern match counts of `decision_patterns`, in source order:
`\bif\b`, `\belse\b`, `\belif\b`, `\bfor\b`, `\bwhile\b`, `\bcase\b`,
`\bcatch\b`, `\?.*:`. -/
def decisionPatternCounts (code : List Char) : List Nat :=
  [countWord "if".toList code,
   countWord "else".toList code,
   countWord "elif".toList code,
   countWord "for".toList code,
   countWord "while".toList code,
   countWord "case".toList code,
   countWord "catch".toList code,
   ternaryCount code]

/-- `CodeAnalyzer._calculate_cyclomatic_complexity`: start the accumulator
at 1, add each pattern count, then `min(100, complexity / 10)`.  The
`language` argument is accepted and ignored, as in the source. -/
def cyclomaticComplexity (code : List Char) (_language : String) : ℚ :=
  let complexity : Nat := (decisionPatternCounts code).foldl (· + ·) 1
  min 100 ((complexity : ℚ) / 10)

/-- `CodeAnalyzer._calculate_nesting_depth`: one pass over the characters;
any of `{([` increments the depth and updates the maximum, any of `}])`
decrements with a floor at 0 (`max(0, current_depth - 1)` is exactly
truncated `Nat` subtraction). -/
def nestingDepthAux : Nat → Nat → List Char → Nat
  | maxDepth, _, [] => maxDepth
  | maxDepth, cur, c :: cs =>
    if c = '\x7b' || c = '(' || c = '[' then
      nestingDepthAux (max maxDepth (cur + 1)) (cur + 1) cs
    else if c = '\x7d' || c = ')' || c = ']' then
      nestingDepthAux maxDepth (cur - 1) cs
    else
      nestingDepthAux maxDepth cur cs

def nestingDepth (code : List Char) (_language : String) : Nat :=
  nestingDepthAux 0 0 code

/-- `CodeAnalyzer._calculate_duplication_score`:
`len(set(lines))` is the number of distinct lines, modelled by
`List.dedup`. -/
def duplicationScore (code : List Char) : ℚ :=
  let lines := splitLines code
  let uniqueLines := lines.dedup.length
  let totalLines := lines.length
  if totalLines = 0 then 100
  else
    let duplicationRatio : ℚ := 1 - (uniqueLines : ℚ) / (totalLines : ℚ)
    max 0 (100 - duplicationRatio * 100)

/-- `CodeAnalyzer._calculate_cognitive_complexity`:
`len(re.findall(r"\b(if|for|while|case)\b", code, re.IGNORECASE))` is the
sum of the four individual keyword counts (the four words are pairwise
non-overlapping at word boundaries, and a position matches at most one of
them since they start with distinct letters). -/
def cognitiveComplexity (code : List Char) (language : String) : ℚ :=
  let nesting := nestingDepth code language
  let conditionals :=
    countWord "if".toList code + countWord "for".toList code +
      countWord "while".toList code + countWord "case".toList code
  let cognitive := 1 + conditionals + nesting * 2
  min 100 ((cognitive : ℚ) / 2)

/-! ### Language adapters (`app/utils/language_adapter.py`)

`analyze_quality` binds the results of `extract_functions` and
`extract_classes` but never uses them, so only the extractors that feed a
verified claim are embedded: the comment extractors (their length enters
the documentation ratio) and the JavaScript function extractor (claim
about its dedup behaviour).  `count_blank_lines` is an adapter-independent
base-class method. -/

inductive CommentKind
  | line
  | block
deriving DecidableEq

structure Comment where
  line : Nat
  text : List Char
  kind : Option CommentKind
deriving DecidableEq

/-- `PythonAdapter.extract_comments`: lines whose stripped form starts
with `#`; the Python dicts carry no `type` key, hence `kind = none`. -/
def pythonExtractComments (code : List Char) : List Comment :=
  (splitLines code).enum.filterMap fun p =>
    let stripped := pyStrip p.2
    if "#".toList.isPrefixOf stripped then some ⟨p.1 + 1, stripped, none⟩
    else none

/-- `JavaScriptAdapter.extract_comments`: line scan with a block-comment
flag.  A line containing `/*` sets the flag before the `*/` test; a line
containing `*/` clears the flag, is recorded as a block comment, and the
scan continues with the flag cleared. -/
def jsExtractCommentsAux : Bool → Nat → List (List Char) → List Comment
  | _, _, [] => []
  | inBlock, i, l :: ls =>
    let stripped := pyStrip l
    let inBlock2 := if containsSub "/*".toList stripped then true else inBlock
    if containsSub "*/".toList stripped then
      ⟨i, stripped, some .block⟩ :: jsExtractCommentsAux false (i + 1) ls
    else if inBlock2 then
      ⟨i, stripped, some .block⟩ :: jsExtractCommentsAux inBlock2 (i + 1) ls
    else if "//".toList.isPrefixOf stripped then
      ⟨i, stripped, some .line⟩ :: jsExtractCommentsAux inBlock2 (i + 1) ls
    else
      jsExtractCommentsAux inBlock2 (i + 1) ls

def jsExtractComments (code : List Char) : List Comment :=
  jsExtractCommentsAux false 1 (splitLines code)

/-- `JavaAdapter.extract_comments` is character-for-character identical to
the JavaScript one in the source. -/
def javaExtractComments : List Char → List Comment :=
  jsExtractComments

/-- `LanguageAdapter.count_blank_lines`: lines whose `strip()` is falsy. -/
def countBlankLines (code : List Char) : Nat :=
  ((splitLines code).filter fun l => (pyStrip l).isEmpty).length

/-! #### JavaScript function extraction (`JavaScriptAdapter.extract_functions`)

The three patterns
`function\s+(\w+)\s*\((.*?)\)`, `const\s+(\w+)\s*=\s*(?:async\s*)?\((.*?)\)`
and `(\w+)\s*\((.*?)\)\s*\x7b` are applied per line with `re.search`.
Within one line `.` never meets a newline, `\w+`/`\s+`/`\s*` runs are
followed by characters outside their class, so the backtracking engine is
deterministic except for the lazy `(.*?)`, which stops at the first
position where the pattern tail matches; `re.search` tries start
positions left to right, which `searchAt` replicates by trying every
suffix. -/

/-- Match a literal at the head of the text, returning the rest. -/
def lit (s l : List Char) : Option (List Char) :=
  if s.isPrefixOf l then some (l.drop s.length) else none

/-- `\s+` (greedy; the following pattern characters are never
whitespace, so maximal munch is exact). -/
def ws1 : List Char → Option (List Char)
  | [] => none
  | c :: cs => if isPySpace c then some (cs.dropWhile isPySpace) else none

/-- `(\w+)` (greedy; the following pattern characters are never word
characters, so maximal munch is exact). -/
def word1 : List Char → Option (List Char × List Char)
  | [] => none
  | c :: cs =>
    if isWordChar c then some (c :: cs.takeWhile isWordChar, cs.dropWhile isWordChar)
    else none

/-- `(.*?)\)`: the capture runs to the first `)`. -/
def upToClose : List Char → Option (List Char × List Char)
  | [] => none
  | c :: cs =>
    if c = ')' then some ([], cs)
    else (upToClose cs).map fun p => (c :: p.1, p.2)

/-- `(.*?)\)\s*\x7b`: the capture runs to the first `)` that is followed,
after optional whitespace, by an opening brace; a `)` failing that test
is swallowed by the lazy `.*?`. -/
def upToCloseBrace : List Char → Option (List Char × List Char)
  | [] => none
  | c :: cs =>
    if c = ')' then
      match cs.dropWhile isPySpace with
      | '\x7b' :: _ => some ([], cs)
      | _ => (upToCloseBrace cs).map fun p => (c :: p.1, p.2)
    else (upToCloseBrace cs).map fun p => (c :: p.1, p.2)

/-- Anchored match of `function\s+(\w+)\s*\((.*?)\)`. -/
def matchP1At (l : List Char) : Option (List Char × List Char) := do
  let r1 ← lit "function".toList l
  let r2 ← ws1 r1
  let (name, r3) ← word1 r2
  let r4 ← lit "(".toList (r3.dropWhile isPySpace)
  let (ps, _) ← upToClose r4
  pure (name, ps)

/-- Anchored match of `const\s+(\w+)\s*=\s*(?:async\s*)?\((.*?)\)`: the
optional `async\s*` group is tried first and dropped on failure of the
tail, as the backtracking engine does. -/
def matchP2At (l : List Char) : Option (List Char × List Char) := do
  let r1 ← lit "const".toList l
  let r2 ← ws1 r1
  let (name, r3) ← word1 r2
  let r4 ← lit "=".toList (r3.dropWhile isPySpace)
  let r5 := r4.dropWhile isPySpace
  let (ps, _) ←
    (match lit "async".toList r5 with
     | some r6 =>
        (do
          let r7 ← lit "(".toList (r6.dropWhile isPySpace)
          upToClose r7) <|>
        (do
          let r7 ← lit "(".toList r5
          upToClose r7)
     | none => do
        let r7 ← lit "(".toList r5
        upToClose r7)
  pure (name, ps)

/-- Anchored match of `(\w+)\s*\((.*?)\)\s*\x7b`. -/
def matchP3At (l : List Char) : Option (List Char × List Char) := do
  let (name, r1) ← word1 l
  let r2 ← lit "(".toList (r1.dropWhile isPySpace)
  let (ps, _) ← upToCloseBrace r2
  pure (name, ps)

/-- `re.search`: try the anchored matcher at every start position, left
to right. -/
def searchAt {α : Type} (m : List Char → Option α) : List Char → Option α
  | [] => m []
  | c :: cs => m (c :: cs) <|> searchAt m cs

/-- The per-line pattern loop of `extract_functions`: the three patterns
are tried in source order over the whole line, the first that matches
anywhere wins (`break`). -/
def jsMatchLine (l : List Char) : Option (List Char × List Char) :=
  searchAt matchP1At l <|> searchAt matchP2At l <|> searchAt matchP3At l

/-- `[p.strip() for p in params.split(",") if p.strip()]`. -/
def parseParams (ps : List Char) : List (List Char) :=
  ((splitOnChar ',' ps).map pyStrip).filter fun p => !p.isEmpty

structure FunctionFact where
  name : List Char
  line : Nat
  parameters : List (List Char)
deriving DecidableEq

/-- The `matches` list built by `extract_functions` before dedup
(1-based line numbers from `enumerate(..., 1)`). -/
def jsLineMatches (code : List Char) : List FunctionFact :=
  (splitLines code).enum.filterMap fun p =>
    (jsMatchLine p.2).map fun m => ⟨m.1, p.1 + 1, parseParams m.2⟩

/-- One Python dict assignment `d[k] = v`: an existing key keeps its
position but gets the new value; a new key is appended.  (`dictOf` only
ever calls this on lists with distinct keys, where replacing the first
hit is replacing the only hit.) -/
def insertDict {κ ν : Type} [DecidableEq κ] : List (κ × ν) → κ → ν → List (κ × ν)
  | [], k, v => [(k, v)]
  | p :: d, k, v => if p.1 = k then (k, v) :: d else p :: insertDict d k v

/-- The dict comprehension `\x7bm["name"]: m for m in matches\x7d`:
left-to-right insertion into an insertion-ordered dict. -/
def dictOf {κ ν : Type} [DecidableEq κ] (l : List (κ × ν)) : List (κ × ν) :=
  l.foldl (fun d p => insertDict d p.1 p.2) []

/-- `JavaScriptAdapter.extract_functions`:
`list(\x7bm["name"]: m for m in matches\x7d.values())`. -/
def jsExtractFunctions (code : List Char) : List FunctionFact :=
  (dictOf ((jsLineMatches code).map fun m => (m.name, m))).map Prod.snd

/-! #### `LanguageAdapterFactory` -/

inductive AdapterKind
  | python
  | javascript
  | java
deriving DecidableEq

/-- The `_adapters` table, in source order.  `cpp`/`c++` map to the
Java adapter in the source. -/
def adapterAliases : List (String × AdapterKind) :=
  [("python", .python), ("py", .python),
   ("javascript", .javascript), ("js", .javascript),
   ("typescript", .javascript), ("ts", .javascript),
   ("java", .java), ("cpp", .java), ("c++", .java)]

/-- Python `str.lower()`, ASCII part. -/
def lowerStr (s : String) : String :=
  ⟨s.data.map Char.toLower⟩

/-- `LanguageAdapterFactory.supported_languages()`: the dict keys in
insertion order. -/
def supportedLanguages : List String :=
  adapterAliases.map Prod.fst

/-- `LanguageAdapterFactory.create`: dict lookup on the lowercased
identifier; a miss raises
`ValueError(f"Unsupported language: ...  Supported: ...")`. -/
def create (language : String) : Except String AdapterKind :=
  match adapterAliases.lookup (lowerStr language) with
  | some a => Except.ok a
  | none =>
      Except.error
        ("Unsupported language: " ++ language ++ ". Supported: " ++
          String.intercalate ", " supportedLanguages)

/-- Adapter dispatch for `extract_comments`. -/
def extractComments : AdapterKind → List Char → List Comment
  | .python => pythonExtractComments
  | .javascript => jsExtractComments
  | .java => javaExtractComments

/-! ### Issue detection (`CodeAnalyzer._detect_*_issues`) -/

structure Issue where
  issueType : String
  severity : String
  lineNumber : Option Nat
  message : String
  suggestion : Option String
deriving DecidableEq

/-- `_detect_style_issues`: lines longer than 100 characters, first five
in document order, 1-based line numbers. -/
def detectStyleIssues (code : List Char) (_language : String) : List Issue :=
  let longLines := (splitLines code).enum.filterMap fun p =>
    if 100 < p.2.length then some (p.1 + 1, p.2.length) else none
  (longLines.take 5).map fun p =>
    ⟨"style", "info", some p.1,
     "Line exceeds 100 characters (" ++ toString p.2 ++ " chars)",
     some "Consider breaking this line for better readability"⟩

/-- `_detect_complexity_issues`: one warning when the cyclomatic score
exceeds 50, one when the nesting depth exceeds 5. -/
def detectComplexityIssues (code : List Char) (language : String) : List Issue :=
  let complexity := cyclomaticComplexity code language
  let highComplexity : List Issue :=
    if 50 < complexity then
      [⟨"complexity", "warning", none, "High cyclomatic complexity detected",
        some "Consider refactoring into smaller functions"⟩]
    else []
  let nesting := nestingDepth code language
  let deepNesting : List Issue :=
    if 5 < nesting then
      [⟨"nesting", "warning", none,
        "Deep nesting detected (level " ++ toString nesting ++ ")",
        some "Consider extracting nested blocks into separate functions"⟩]
    else []
  highComplexity ++ deepNesting

/-- `len(re.findall(r"\b[a-z]\b(?!\w)", code))`: single lowercase letters
with a word boundary on each side (the lookahead `(?!\w)` is implied by
the second `\b`); matches have length one, so the positions counted here
are exactly the non-overlapping matches. -/
def countSingleLetterAux : Bool → List Char → Nat
  | _, [] => 0
  | prevIsWord, c :: cs =>
    let hit := !prevIsWord && ('a' ≤ c && c ≤ 'z') && atWordBreak cs
    (if hit then 1 else 0) + countSingleLetterAux (isWordChar c) cs

def countSingleLetterVars (code : List Char) : Nat :=
  countSingleLetterAux false code

/-- `_detect_naming_issues`. -/
def detectNamingIssues (code : List Char) (_language : String) : List Issue :=
  if 3 < countSingleLetterVars code then
    [⟨"naming", "info", none, "Multiple single-letter variable names found",
      some "Use more descriptive variable names"⟩]
  else []

/-! ### Pattern detection (`CodeAnalyzer._detect_*_pattern`,
`_has_mixed_concerns`)

Each regex used here is a chain of literals, `\s+`/`\s*` runs and `\w+`
runs in which every class is followed by a character outside it, so the
anchored matchers below are exact; presence is `re.search` = `searchAt`. -/

structure ArchitectureInsight where
  patternDetected : String
  confidence : ℚ
  description : String
  recommendations : List String
deriving DecidableEq

/-- Anchored `private\s+static\s+\w+\s+instance`. -/
def singletonPatternA (l : List Char) : Option Unit := do
  let r1 ← lit "private".toList l
  let r2 ← ws1 r1
  let r3 ← lit "static".toList r2
  let r4 ← ws1 r3
  let (_, r5) ← word1 r4
  let r6 ← ws1 r5
  let _ ← lit "instance".toList r6
  pure ()

/-- Anchored `private\s+def\s+__init__`. -/
def singletonPatternC (l : List Char) : Option Unit := do
  let r1 ← lit "private".toList l
  let r2 ← ws1 r1
  let r3 ← lit "def".toList r2
  let r4 ← ws1 r3
  let _ ← lit "__init__".toList r4
  pure ()

/-- Anchored `NAME\s*\(` for a literal `NAME` (e.g. `getInstance\s*\(`). -/
def plainCallPattern (s : List Char) (l : List Char) : Option Unit := do
  let r1 ← lit s l
  let _ ← lit "(".toList (r1.dropWhile isPySpace)
  pure ()

/-- Anchored `NAME\w+\s*\(` for a literal `NAME` (e.g. `create\w+\s*\(`). -/
def wordCallPattern (s : List Char) (l : List Char) : Option Unit := do
  let r1 ← lit s l
  let (_, r2) ← word1 r1
  let _ ← lit "(".toList (r2.dropWhile isPySpace)
  pure ()

/-- Anchored `Factory\s*class`. -/
def factoryClassPattern (l : List Char) : Option Unit := do
  let r1 ← lit "Factory".toList l
  let _ ← lit "class".toList (r1.dropWhile isPySpace)
  pure ()

/-- `_detect_singleton_pattern`: indicators tried in source order. -/
def detectSingletonPattern (code : List Char) (_language : String) : Bool :=
  (searchAt singletonPatternA code).isSome ||
    (searchAt (plainCallPattern "getInstance".toList) code).isSome ||
    (searchAt singletonPatternC code).isSome

/-- `_detect_factory_pattern`. -/
def detectFactoryPattern (code : List Char) (_language : String) : Bool :=
  (searchAt (wordCallPattern "create".toList) code).isSome ||
    (searchAt (wordCallPattern "make".toList) code).isSome ||
    (searchAt (wordCallPattern "build".toList) code).isSome ||
    (searchAt factoryClassPattern code).isSome

/-- `_detect_observer_pattern`. -/
def detectObserverPattern (code : List Char) (_language : String) : Bool :=
  (searchAt (plainCallPattern "subscribe".toList) code).isSome ||
    (searchAt (plainCallPattern "addListener".toList) code).isSome ||
    (searchAt (plainCallPattern "addEventListener".toList) code).isSome ||
    (searchAt (plainCallPattern "notify".toList) code).isSome ||
    (searchAt (plainCallPattern "emit".toList) code).isSome

/-- `len(re.findall(p, code))` for an alternation `p` of plain literals:
scan left to right; at each position the first alternative that matches
is counted and skipped (non-overlapping), otherwise advance one
character. -/
def countAlts (alts : List (List Char)) : List Char → Nat
  | [] => 0
  | c :: cs =>
    match alts.findSome? (fun a => if a.isPrefixOf (c :: cs) then some a.length else none) with
    | some n => 1 + countAlts alts (cs.drop (n - 1))
    | none => countAlts alts cs
termination_by l => l.length
decreasing_by
  all_goals simp [List.length_drop]
  omega

def dbAlts1 : List (List Char) :=
  ["SELECT".toList, "INSERT".toList, "UPDATE".toList, "DELETE".toList,
   "query".toList, "execute".toList]

def dbAlts2 : List (List Char) :=
  [".save(".toList, ".delete(".toList]

def uiAlts : List (List Char) :=
  ["render".toList, "display".toList, "button".toList, "click".toList,
   "onChange".toList, "setState".toList]

def logicAlts : List (List Char) :=
  ["calculate".toList, "process".toList, "validate".toList, "transform".toList]

/-- `_has_mixed_concerns`. -/
def hasMixedConcerns (code : List Char) : Bool :=
  let dbCount := countAlts dbAlts1 code + countAlts dbAlts2 code
  let uiCount := countAlts uiAlts code
  let logicCount := countAlts logicAlts code
  decide ((0 < dbCount ∧ 0 < uiCount) ∨ (0 < dbCount ∧ 5 < logicCount))

/-- `_detect_layering_issues`. -/
def detectLayeringIssues (code : List Char) : List ArchitectureInsight :=
  if hasMixedConcerns code then
    [⟨"Mixed Concerns", 0.7,
      "Code appears to mix multiple concerns in a single module",
      ["Consider separating presentation, business logic, and data layers",
       "Apply Single Responsibility Principle"]⟩]
  else []

/-- `CodeAnalyzer.analyze_architecture`: insights appended in source
order. -/
def analyzeArchitecture (code : List Char) (language : String) :
    List ArchitectureInsight :=
  (if detectSingletonPattern code language then
    [⟨"Singleton Pattern", 0.85,
      "Code appears to implement the Singleton design pattern",
      ["Ensure thread-safety is properly implemented",
       "Consider if eager or lazy initialization is appropriate"]⟩]
   else []) ++
  (if detectFactoryPattern code language then
    [⟨"Factory Pattern", 0.8,
      "Code appears to implement the Factory design pattern",
      ["Ensure consistent creation logic",
       "Consider abstracting further for better extensibility"]⟩]
   else []) ++
  (if detectObserverPattern code language then
    [⟨"Observer Pattern", 0.75,
      "Code appears to implement the Observer design pattern",
      ["Ensure proper cleanup of observers",
       "Consider weak references for listeners"]⟩]
   else []) ++
  detectLayeringIssues code

/-! ### Formatting advice (`CodeAnalyzer._check_*_formatting`) -/

structure FormattingRecommendation where
  category : String
  currentStyle : String
  recommendedStyle : String
  reason : String
  lineNumber : Option Nat
deriving DecidableEq

/-- `len(re.findall(r"^\t", code, re.MULTILINE))`: one match per line
starting with a tab. -/
def checkPythonFormatting (code : List Char) : List FormattingRecommendation :=
  let spaces := ((splitLines code).filter fun l => l.head? = some '\t').length
  if 0 < spaces then
    [⟨"indentation", "tabs", "spaces (4 spaces per level)",
      "PEP 8 recommends using spaces for indentation", none⟩]
  else []

/-- `len(re.findall(r"[^;\x7b\s]\n", code))`: adjacent pairs whose second
character is a newline and whose first is neither `;`, an opening brace
nor whitespace; matches have length two and cannot overlap because a
newline is whitespace and thus never a first character. -/
def countNonTermNewlines : List Char → Nat
  | c1 :: c2 :: cs =>
    (if c2 = '\n' ∧ ¬(c1 = ';' ∨ c1 = '\x7b' ∨ isPySpace c1 = true) then 1 else 0) +
      countNonTermNewlines (c2 :: cs)
  | _ => 0

/-- `_check_javascript_formatting`. -/
def checkJavascriptFormatting (code : List Char) : List FormattingRecommendation :=
  let noSemicolon := countNonTermNewlines code
  let semicolon := code.count ';'
  if semicolon = 0 ∧ 3 < noSemicolon then
    [⟨"semicolons", "no semicolons", "semicolons at line endings",
      "Consistent semicolon usage prevents potential ASI issues", none⟩]
  else []

/-- The `\s*$` tail of `\x7b\s*$` under `re.MULTILINE`: from the current
position, skipping whitespace may reach a newline or the end of the
string. -/
def wsToEol : List Char → Bool
  | [] => true
  | c :: cs => if c = '\n' then true else isPySpace c && wsToEol cs

/-- `re.search(r"\x7b\s*$", code, re.MULTILINE)`: some opening brace is
followed, up to whitespace, by a line end. -/
def hasBraceEol : List Char → Bool
  | [] => false
  | c :: cs => (c = '\x7b' && wsToEol cs) || hasBraceEol cs

/-- `_check_java_formatting`: recommend only when the search fails. -/
def checkJavaFormatting (code : List Char) : List FormattingRecommendation :=
  if hasBraceEol code then []
  else
    [⟨"brace_style", "braces on new line", "braces at end of line",
      "Java convention places opening braces at line end", none⟩]

/-- `CodeAnalyzer.analyze_formatting`: dispatch on the lowercased
language; `java` only matches exactly; anything else (including `cpp`)
gets no recommendations. -/
def analyzeFormatting (code : List Char) (language : String) :
    List FormattingRecommendation :=
  if lowerStr language ∈ (["python", "py"] : List String) then
    checkPythonFormatting code
  else if lowerStr language ∈ (["javascript", "js", "typescript", "ts"] : List String) then
    checkJavascriptFormatting code
  else if lowerStr language = "java" then
    checkJavaFormatting code
  else []

/-! ### Quality scoring and orchestration (`CodeAnalyzer.analyze_quality`,
`analyze_issues`, `analyze_complexity`, `AnalysisService.analyze_full`) -/

structure QualityScore where
  overallScore : ℚ
  codeQuality : ℚ
  maintainability : ℚ
  complexity : ℚ
  duplication : ℚ
deriving DecidableEq

/-- `CodeAnalyzer.analyze_quality`.  The adapter only enters through the
comment count (and the possibility of an unsupported-language error);
`functions`/`classes` are extracted and discarded by the source, so they
are not bound here.  `code_lines` is a plain Python integer difference,
modelled in `ℤ`.  The `duplication` field is returned unclamped in the
source. -/
def analyzeQuality (code : List Char) (language : String) :
    Except String QualityScore := do
  let adapter ← create language
  let totalLines := (splitLines code).length
  let blankLines := countBlankLines code
  let commentLines := (extractComments adapter code).length
  let codeLines : ℤ := (totalLines : ℤ) - (blankLines : ℤ)
  let complexityScore := cyclomaticComplexity code language
  let dupScore := duplicationScore code
  let documentationRatio : ℚ :=
    if 0 < codeLines then (commentLines : ℚ) / (codeLines : ℚ) * 100 else 0
  let maintainability :=
    min 100 (50 + documentationRatio + (100 - complexityScore) * 0.5)
  let codeQuality :=
    max 0 (100 - ((totalLines : ℚ) / 1000 * 5 + complexityScore * 0.3 +
      (100 - dupScore) * 0.2))
  let overallScore := (codeQuality + maintainability + dupScore) / 3
  pure ⟨min 100 (max 0 overallScore), min 100 (max 0 codeQuality),
        min 100 (max 0 maintainability), min 100 (max 0 complexityScore),
        dupScore⟩

/-- `CodeAnalyzer.analyze_issues`: creates the adapter (raising for an
unsupported language) without otherwise using it, then concatenates the
three detectors in source order. -/
def analyzeIssues (code : List Char) (language : String) :
    Except String (List Issue) := do
  let _ ← create language
  pure (detectStyleIssues code language ++ detectComplexityIssues code language ++
    detectNamingIssues code language)

structure ComplexityMetrics where
  cyclomaticComplexity : ℚ
  cognitiveComplexity : ℚ
  linesOfCode : Nat
  nestingDepth : Nat
deriving DecidableEq

/-- `CodeAnalyzer.analyze_complexity` (total: no adapter is created). -/
def analyzeComplexity (code : List Char) (language : String) : ComplexityMetrics :=
  ⟨cyclomaticComplexity code language, cognitiveComplexity code language,
   (splitLines code).length, nestingDepth code language⟩

structure FullReport where
  fileName : Option String
  language : String
  codeLength : Nat
  qualityScore : QualityScore
  issues : List Issue
  complexityMetrics : ComplexityMetrics
  architectureInsights : List ArchitectureInsight
  formattingRecommendations : List FormattingRecommendation
  analysisDurationMs : ℚ
deriving DecidableEq

/-- `AnalysisService.analyze_full`.  The two `time.time()` readings are
the only non-deterministic inputs of the Python function; they are made
explicit parameters, and the duration is `(end - start) * 1000`. -/
def analyzeFull (code : List Char) (language : String) (fileName : Option String)
    (startTime endTime : ℚ) : Except String FullReport := do
  let qualityScore ← analyzeQuality code language
  let issues ← analyzeIssues code language
  let complexity := analyzeComplexity code language
  let architecture := analyzeArchitecture code language
  let formatting := analyzeFormatting code language
  pure ⟨fileName, language, (splitLines code).length, qualityScore, issues,
        complexity, architecture, formatting, (endTime - startTime) * 1000⟩

/-- Every field of a full report except the elapsed duration. -/
def FullReport.stripDuration (r : FullReport) :
    Option String × String × Nat × QualityScore × List Issue ×
      ComplexityMetrics × List ArchitectureInsight × List FormattingRecommendation :=
  (r.fileName, r.language, r.codeLength, r.qualityScore, r.issues,
   r.complexityMetrics, r.architectureInsights, r.formattingRecommendations)

/-! ### Basic lemmas -/

theorem splitOnChar_ne_nil (sep : Char) (l : List Char) : splitOnChar sep l ≠ [] := by
  induction l with
  | nil => simp [splitOnChar]
  | cons c cs ih =>
    simp only [splitOnChar]
    split
    · simp
    · split
      · simp
      · simp

theorem splitLines_ne_nil (code : List Char) : splitLines code ≠ [] :=
  splitOnChar_ne_nil '\n' code

theorem splitLines_length_pos (code : List Char) : 0 < (splitLines code).length :=
  List.length_pos.mpr (splitLines_ne_nil code)

theorem splitLines_dedup_length_pos (code : List Char) :
    0 < (splitLines code).dedup.length := by
  rcases List.exists_mem_of_ne_nil _ (splitLines_ne_nil code) with ⟨a, ha⟩
  exact List.length_pos.mpr (List.ne_nil_of_mem (List.mem_dedup.mpr ha))

theorem splitLines_dedup_length_le (code : List Char) :
    (splitLines code).dedup.length ≤ (splitLines code).length :=
  ((splitLines code).dedup_sublist).length_le

/-- On any input the duplication score is computed by the ratio branch:
`100 × unique / total`. -/
theorem duplicationScore_eq_ratio (code : List Char) :
    duplicationScore code =
      100 * ((splitLines code).dedup.length : ℚ) / ((splitLines code).length : ℚ) := by
  have h0 : (splitLines code).length ≠ 0 := (splitLines_length_pos code).ne'
  have ht : ((splitLines code).length : ℚ) ≠ 0 := by exact_mod_cast h0
  have hu : (0 : ℚ) < ((splitLines code).dedup.length : ℚ) := by
    exact_mod_cast splitLines_dedup_length_pos code
  have htp : (0 : ℚ) < ((splitLines code).length : ℚ) := by
    exact_mod_cast splitLines_length_pos code
  unfold duplicationScore
  rw [if_neg h0]
  show max 0 ((100 : ℚ) -
      (1 - ((splitLines code).dedup.length : ℚ) / ((splitLines code).length : ℚ)) * 100) = _
  have hexp : (100 : ℚ) -
      (1 - ((splitLines code).dedup.length : ℚ) / ((splitLines code).length : ℚ)) * 100 =
      100 * ((splitLines code).dedup.length : ℚ) / ((splitLines code).length : ℚ) := by
    field_simp
    ring
  rw [hexp]
  exact max_eq_right (by positivity)

theorem duplicationScore_pos (code : List Char) : 0 < duplicationScore code := by
  rw [duplicationScore_eq_ratio]
  have hu : (0 : ℚ) < ((splitLines code).dedup.length : ℚ) := by
    exact_mod_cast splitLines_dedup_length_pos code
  have htp : (0 : ℚ) < ((splitLines code).length : ℚ) := by
    exact_mod_cast splitLines_length_pos code
  positivity

theorem duplicationScore_le_100 (code : List Char) : duplicationScore code ≤ 100 := by
  rw [duplicationScore_eq_ratio]
  have htp : (0 : ℚ) < ((splitLines code).length : ℚ) := by
    exact_mod_cast splitLines_length_pos code
  rw [div_le_iff₀ htp]
  have hle : ((splitLines code).dedup.length : ℚ) ≤ ((splitLines code).length : ℚ) := by
    exact_mod_cast splitLines_dedup_length_le code
  nlinarith

/-- A Python whitespace character is not a bracket, so a blank-only text
never moves the nesting counters. -/
theorem nestingDepthAux_all_space (l : List Char) (h : ∀ c ∈ l, isPySpace c = true) :
    ∀ maxDepth cur, nestingDepthAux maxDepth cur l = maxDepth := by
  induction l with
  | nil => intro maxDepth cur; rfl
  | cons c cs ih =>
    intro maxDepth cur
    have hc : isPySpace c = true := h c (List.mem_cons_self c cs)
    have hmem : ∀ x ∈ cs, isPySpace x = true := fun x hx => h x (List.mem_cons_of_mem c hx)
    simp only [isPySpace, Bool.or_eq_true, decide_eq_true_eq] at hc
    have hopen : (c = '\x7b' || c = '(' || c = '[') = false := by
      rcases hc with ((((rfl | rfl) | rfl) | rfl) | rfl) | rfl <;> rfl
    have hclose : (c = '\x7d' || c = ')' || c = ']') = false := by
      rcases hc with ((((rfl | rfl) | rfl) | rfl) | rfl) | rfl <;> rfl
    simp only [nestingDepthAux, hopen, hclose, if_false, Bool.false_eq_true]
    exact ih hmem maxDepth cur

/-! ### Claims about the metric calculators -/

/-- Claim C2: for every input text (and any language argument, which the
source ignores), the cyclomatic complexity equals one plus the
case-insensitive occurrence counts of `if`, `else`, `elif`, `for`,
`while`, `case`, `catch` and of the ternary `?...:` shape, summed over
the whole text, divided by 10 and clamped to at most 100. -/
theorem cyclomatic_matches_spec_formula (code : List Char) (language : String) :
    cyclomaticComplexity code language =
      min 100 (((1 + countWord "if".toList code + countWord "else".toList code +
        countWord "elif".toList code + countWord "for".toList code +
        countWord "while".toList code + countWord "case".toList code +
        countWord "catch".toList code + ternaryCount code : ℕ) : ℚ) / 10) ∧
      cyclomaticComplexity code language ≤ 100 :=
  ⟨rfl, min_le_left _ _⟩

/-- Claim C9: cyclomatic complexity is monotone non-decreasing in the
decision-construct counts; the text length is held fixed as in the claim
(the score does not depend on it otherwise). -/
theorem cyclomatic_monotone (t1 t2 : List Char) (language : String)
    (_hlen : t1.length = t2.length)
    (h1 : countWord "if".toList t1 ≤ countWord "if".toList t2)
    (h2 : countWord "else".toList t1 ≤ countWord "else".toList t2)
    (h3 : countWord "elif".toList t1 ≤ countWord "elif".toList t2)
    (h4 : countWord "for".toList t1 ≤ countWord "for".toList t2)
    (h5 : countWord "while".toList t1 ≤ countWord "while".toList t2)
    (h6 : countWord "case".toList t1 ≤ countWord "case".toList t2)
    (h7 : countWord "catch".toList t1 ≤ countWord "catch".toList t2)
    (h8 : ternaryCount t1 ≤ ternaryCount t2) :
    cyclomaticComplexity t1 language ≤ cyclomaticComplexity t2 language := by
  unfold cyclomaticComplexity
  have hsum : (decisionPatternCounts t1).foldl (· + ·) 1 ≤
      (decisionPatternCounts t2).foldl (· + ·) 1 := by
    simp only [decisionPatternCounts, List.foldl]
    omega
  refine min_le_min le_rfl ?_
  have hcast : (((decisionPatternCounts t1).foldl (· + ·) 1 : ℕ) : ℚ) ≤
      (((decisionPatternCounts t2).foldl (· + ·) 1 : ℕ) : ℚ) := by exact_mod_cast hsum
  exact (div_le_div_iff_of_pos_right (by norm_num)).mpr hcast

/-- Claim C9 witness: a concrete equal-length pair with pointwise larger
counts. -/
theorem cyclomatic_monotone_witness :
    "xx xx".toList.length = "if if".toList.length ∧
      cyclomaticComplexity "xx xx".toList "python" ≤
        cyclomaticComplexity "if if".toList "python" :=
  ⟨by decide,
   cyclomatic_monotone "xx xx".toList "if if".toList "python" (by decide) (by decide)
     (by decide) (by decide) (by decide) (by decide) (by decide) (by decide) (by decide)⟩

/-- Claim C7 counterexample: the spec names the values 3 and 1, but every
one of `{`, `[`, `[`, `(` increments the depth counter, so the left-hand
value is 4. -/
theorem nesting_depth_values_counterexample :
    nestingDepth "\x7b[[()]]\x7d".toList "python" = 4 ∧
      nestingDepth "\x7b[[()]]\x7d".toList "python" ≠ 3 := by decide

/-- Claim C7 (amended): the comparison itself holds, with values 4
and 1. -/
theorem nesting_depth_comparison_amended :
    nestingDepth "\x7b[[()]]\x7d".toList "python" = 4 ∧
      nestingDepth "x = \x7b\x7d".toList "python" = 1 ∧
      nestingDepth "x = \x7b\x7d".toList "python" <
        nestingDepth "\x7b[[()]]\x7d".toList "python" := by decide

/-- The Scenario A source text. -/
def scenarioACode : List Char :=
  "def factorial(n):\n    if n <= 1:\n        return 1\n    return n * factorial(n - 1)\n".toList

/-- Claim C5 counterexample: the claimed `nestingDepth == 0` fails; the
parentheses of `factorial(n)` raise the depth to 1. -/
theorem scenario_a_nesting_counterexample :
    (analyzeComplexity scenarioACode "python").nestingDepth = 1 ∧
      (analyzeComplexity scenarioACode "python").nestingDepth ≠ 0 := by decide

/-- Claim C5 (amended): on Scenario A the metrics are
`linesOfCode = 5`, `nestingDepth = 1` and `cyclomaticComplexity = 1/5`
(the 0.2 of the claim). -/
theorem scenario_a_amended :
    (analyzeComplexity scenarioACode "python").linesOfCode = 5 ∧
      (analyzeComplexity scenarioACode "python").nestingDepth = 1 ∧
      (analyzeComplexity scenarioACode "python").cyclomaticComplexity = 1 / 5 := by
  refine ⟨rfl, rfl, ?_⟩
  have hfold : (decisionPatternCounts scenarioACode).foldl (· + ·) 1 = 2 := by decide
  show cyclomaticComplexity scenarioACode "python" = 1 / 5
  simp only [cyclomaticComplexity, hfold]
  rw [min_eq_right (by norm_num)]
  norm_num

/-- Claim C8 counterexample: the input `"\n"` consists only of
whitespace, yet its two lines are both empty, so the duplication score is
50, not 100. -/
theorem blank_duplication_counterexample :
    "\n".toList.all isPySpace = true ∧
      duplicationScore "\n".toList = 50 ∧
      duplicationScore "\n".toList ≠ 100 := by
  have hu : (splitLines "\n".toList).dedup.length = 1 := by decide
  have ht : (splitLines "\n".toList).length = 2 := by decide
  have h50 : duplicationScore "\n".toList = 50 := by
    rw [duplicationScore_eq_ratio, hu, ht]
    norm_num
  exact ⟨by decide, h50, by rw [h50]; norm_num⟩

/-- Claim C8 (amended): on blank-only input the nesting depth is 0, and
the duplication score is 100 exactly under the additional hypothesis that
no blank line repeats (it is `100 × unique / total` in general, by
`duplicationScore_eq_ratio`). -/
theorem blank_input_amended (code : List Char) (language : String)
    (h : code.all isPySpace = true) :
    nestingDepth code language = 0 ∧
      ((splitLines code).Nodup → duplicationScore code = 100) := by
  constructor
  · have hall : ∀ c ∈ code, isPySpace c = true := by
      simpa [List.all_eq_true] using h
    exact nestingDepthAux_all_space code hall 0 0
  · intro hnodup
    rw [duplicationScore_eq_ratio, List.dedup_eq_self.mpr hnodup]
    have ht : ((splitLines code).length : ℚ) ≠ 0 := by
      exact_mod_cast (splitLines_length_pos code).ne'
    field_simp

/-- Claim C8 witness: a blank-only input with two distinct blank lines. -/
theorem blank_input_amended_witness :
    " \n\t".toList.all isPySpace = true ∧
      nestingDepth " \n\t".toList "python" = 0 ∧
      duplicationScore " \n\t".toList = 100 :=
  ⟨by decide,
   (blank_input_amended " \n\t".toList "python" (by decide)).1,
   (blank_input_amended " \n\t".toList "python" (by decide)).2 (by decide)⟩

/-- Claim C10: splitting any string on newlines yields at least one line,
so the `total_lines == 0` default of `_calculate_duplication_score` is
unreachable; the score is always the ratio `100 × unique / total`, which
lies in `(0, 100]`. -/
theorem duplication_zero_branch_unreachable (code : List Char) :
    (splitLines code).length ≠ 0 ∧
      duplicationScore code =
        100 * ((splitLines code).dedup.length : ℚ) / ((splitLines code).length : ℚ) ∧
      0 < duplicationScore code ∧ duplicationScore code ≤ 100 :=
  ⟨(splitLines_length_pos code).ne', duplicationScore_eq_ratio code,
   duplicationScore_pos code, duplicationScore_le_100 code⟩

/-! ### Claims about the quality score, the factory and the orchestrator -/

/-- Clamping with `min(100, max(0, x))` lands in `[0, 100]`. -/
theorem clampBounds (x : ℚ) : 0 ≤ min 100 (max 0 x) ∧ min 100 (max 0 x) ≤ 100 :=
  ⟨le_min (by norm_num) (le_max_left 0 x), min_le_left _ _⟩

/-- Claim C1: whenever `analyze_quality` returns (i.e. for every supported
language), each of the five fields of the quality score lies in
`[0, 100]`.  The first four fields are clamped on return; the
`duplication` field is returned unclamped and stays in range because the
ratio formula does. -/
theorem quality_score_fields_in_range (code : List Char) (language : String) :
    match analyzeQuality code language with
    | .ok q =>
        (0 ≤ q.overallScore ∧ q.overallScore ≤ 100) ∧
        (0 ≤ q.codeQuality ∧ q.codeQuality ≤ 100) ∧
        (0 ≤ q.maintainability ∧ q.maintainability ≤ 100) ∧
        (0 ≤ q.complexity ∧ q.complexity ≤ 100) ∧
        (0 ≤ q.duplication ∧ q.duplication ≤ 100)
    | .error _ => True := by
  unfold analyzeQuality
  cases h : create language with
  | error e => simp [h, Except.bind]
  | ok a =>
    simp only [h, Except.bind, pure, Except.pure]
    exact ⟨clampBounds _, clampBounds _, clampBounds _, clampBounds _,
      le_of_lt (duplicationScore_pos code), duplicationScore_le_100 code⟩

/-- Membership in the keys of an association list is the success of
`List.lookup`. -/
theorem lookup_isSome_iff {ν : Type} (l : List (String × ν)) (k : String) :
    (l.lookup k).isSome = true ↔ k ∈ l.map Prod.fst := by
  induction l with
  | nil => simp [List.lookup]
  | cons p l ih =>
    obtain ⟨a, b⟩ := p
    by_cases hk : k = a
    · subst hk
      simp [List.lookup]
    · have hbeq : (k == a) = false := beq_eq_false_iff_ne.mpr hk
      simp [List.lookup, hbeq, hk, ih]

/-- Claim C3: `create` succeeds exactly when the lowercased identifier is
an alias; on failure the error message carries the full alias list;
`supported_languages` contains `python` and `javascript`; `create("cobol")`
fails with that error; and the factory is the only error source of the
engine — `analyze_full` can only fail with the factory's own error. -/
theorem factory_create_contract :
    (∀ language : String,
        (∃ a, create language = Except.ok a) ↔ lowerStr language ∈ supportedLanguages) ∧
    (∀ language : String, lowerStr language ∉ supportedLanguages →
        create language = Except.error ("Unsupported language: " ++ language ++
          ". Supported: " ++ String.intercalate ", " supportedLanguages)) ∧
    "python" ∈ supportedLanguages ∧
    "javascript" ∈ supportedLanguages ∧
    create "cobol" = Except.error ("Unsupported language: cobol. Supported: " ++
      String.intercalate ", " supportedLanguages) ∧
    (∀ (code : List Char) (language : String) (fileName : Option String)
        (t1 t2 : ℚ) (e : String),
        analyzeFull code language fileName t1 t2 = Except.error e →
        create language = Except.error e) := by
  have hmemiff : ∀ language : String,
      (∃ a, create language = Except.ok a) ↔ lowerStr language ∈ supportedLanguages := by
    intro language
    rw [show supportedLanguages = adapterAliases.map Prod.fst from rfl,
      ← lookup_isSome_iff adapterAliases (lowerStr language)]
    unfold create
    cases h : adapterAliases.lookup (lowerStr language) with
    | none => simp
    | some a => simp
  have herr : ∀ language : String, lowerStr language ∉ supportedLanguages →
      create language = Except.error ("Unsupported language: " ++ language ++
        ". Supported: " ++ String.intercalate ", " supportedLanguages) := by
    intro language hmem
    unfold create
    cases h : adapterAliases.lookup (lowerStr language) with
    | none => rfl
    | some a =>
      exact absurd ((lookup_isSome_iff adapterAliases (lowerStr language)).mp
        (by simp [h])) hmem
  refine ⟨hmemiff, herr, by decide, by decide, herr "cobol" (by decide), ?_⟩
  intro code language fileName t1 t2 e h
  cases hc : create language with
  | error e0 =>
    have hq : analyzeQuality code language = Except.error e0 := by
      unfold analyzeQuality
      rw [hc]
      rfl
    rw [show analyzeFull code language fileName t1 t2 =
        Except.error e0 by unfold analyzeFull; rw [hq]; rfl] at h
    have he : e0 = e := by injection h
    rw [he]
  | ok a =>
    exfalso
    have hq : ∃ q, analyzeQuality code language = Except.ok q := by
      unfold analyzeQuality
      rw [hc]
      exact ⟨_, rfl⟩
    have hi : ∃ l, analyzeIssues code language = Except.ok l := by
      unfold analyzeIssues
      rw [hc]
      exact ⟨_, rfl⟩
    obtain ⟨q, hq⟩ := hq
    obtain ⟨l, hl⟩ := hi
    rw [show analyzeFull code language fileName t1 t2 =
        Except.ok ⟨fileName, language, (splitLines code).length, q, l,
          analyzeComplexity code language, analyzeArchitecture code language,
          analyzeFormatting code language, (t2 - t1) * 1000⟩ by
      unfold analyzeFull; rw [hq, hl]; rfl] at h
    cases h

/-- Claim C3 witness: the contract instantiated at the unsupported
identifier `cobol`. -/
theorem factory_create_contract_witness :
    lowerStr "cobol" ∉ supportedLanguages ∧
      create "cobol" = Except.error ("Unsupported language: cobol. Supported: " ++
        String.intercalate ", " supportedLanguages) :=
  ⟨by decide, factory_create_contract.2.1 "cobol" (by decide)⟩

/-- Claim C4: `analyze_full` is a pure function of the source unit; the
two wall-clock readings (made explicit here) influence only the
`analysisDurationMs` field, so two invocations agree on every other
field — quality score, issues, complexity metrics, architecture insights
and formatting recommendations — and agree on whether they fail. -/
theorem analyze_full_deterministic (code : List Char) (language : String)
    (fileName : Option String) (t1 t2 t3 t4 : ℚ) :
    (analyzeFull code language fileName t1 t2).map FullReport.stripDuration =
      (analyzeFull code language fileName t3 t4).map FullReport.stripDuration := by
  unfold analyzeFull
  cases h1 : analyzeQuality code language with
  | error e => rfl
  | ok q =>
    cases h2 : analyzeIssues code language with
    | error e => rfl
    | ok issues => rfl

/-! ### The insertion-ordered dict used by `extract_functions` (Claim C6)

A Python dict built left to right keeps, for each key, the position of
the key's first insertion but the value of its last insertion.  The
lemmas below establish exactly that for `dictOf`. -/

/-- The deduplication that keeps the first occurrence of each element, in
first-occurrence order. -/
def firstKeys {α : Type} [DecidableEq α] (l : List α) : List α :=
  l.foldl (fun acc k => if k ∈ acc then acc else acc ++ [k]) []

theorem firstKeys_append_singleton {α : Type} [DecidableEq α] (m : List α) (a : α) :
    firstKeys (m ++ [a]) =
      if a ∈ firstKeys m then firstKeys m else firstKeys m ++ [a] := by
  simp [firstKeys, List.foldl_append]

theorem insertDict_map_fst {κ ν : Type} [DecidableEq κ] (d : List (κ × ν)) (k : κ) (v : ν) :
    (insertDict d k v).map Prod.fst =
      if k ∈ d.map Prod.fst then d.map Prod.fst else d.map Prod.fst ++ [k] := by
  induction d with
  | nil => simp [insertDict]
  | cons p d ih =>
    obtain ⟨a, b⟩ := p
    by_cases hp : a = k
    · subst hp
      simp [insertDict]
    · by_cases hk : k ∈ d.map Prod.fst <;>
        simp [insertDict, hp, Ne.symm hp, ih, hk]

theorem insertDict_nodup {κ ν : Type} [DecidableEq κ] (d : List (κ × ν)) (k : κ) (v : ν)
    (h : (d.map Prod.fst).Nodup) : ((insertDict d k v).map Prod.fst).Nodup := by
  rw [insertDict_map_fst]
  by_cases hk : k ∈ d.map Prod.fst
  · simpa [hk] using h
  · simp [hk, List.nodup_append, h]

theorem mem_insertDict_of_ne {κ ν : Type} [DecidableEq κ] (d : List (κ × ν))
    {k k' : κ} (v : ν) (v' : ν) (hne : k' ≠ k) :
    ((k', v') ∈ insertDict d k v) ↔ (k', v') ∈ d := by
  induction d with
  | nil => simp [insertDict, hne]
  | cons p d ih =>
    obtain ⟨a, b⟩ := p
    by_cases hp : a = k
    · subst hp
      simp [insertDict, hne]
    · simp [insertDict, hp, ih]

theorem mem_insertDict_self {κ ν : Type} [DecidableEq κ] (d : List (κ × ν))
    (k : κ) (v v' : ν) (h : (d.map Prod.fst).Nodup) :
    ((k, v') ∈ insertDict d k v) ↔ v' = v := by
  induction d with
  | nil => simp [insertDict]
  | cons p d ih =>
    obtain ⟨a, b⟩ := p
    simp only [List.map_cons, List.nodup_cons] at h
    obtain ⟨ha, hd⟩ := h
    by_cases hp : a = k
    · subst hp
      simp only [insertDict, if_pos rfl]
      constructor
      · intro hmem
        rcases List.mem_cons.mp hmem with heq | hmem2
        · exact (Prod.ext_iff.mp heq).2
        · exact absurd (List.mem_map_of_mem Prod.fst hmem2) ha
      · rintro rfl
        exact List.mem_cons_self _ _
    · simp only [insertDict, if_neg hp]
      rw [List.mem_cons]
      constructor
      · rintro (heq | hmem2)
        · exact absurd (Prod.ext_iff.mp heq).1 fun hh => hp hh.symm
        · exact (ih hd).mp hmem2
      · intro hv
        exact Or.inr ((ih hd).mpr hv)

theorem dictOf_append {κ ν : Type} [DecidableEq κ] (l : List (κ × ν)) (p : κ × ν) :
    dictOf (l ++ [p]) = insertDict (dictOf l) p.1 p.2 := by
  simp [dictOf, List.foldl_append]

theorem dictOf_keys_nodup {κ ν : Type} [DecidableEq κ] (l : List (κ × ν)) :
    ((dictOf l).map Prod.fst).Nodup := by
  induction l using List.reverseRecOn with
  | nil => simp [dictOf]
  | append_singleton l p ih =>
    rw [dictOf_append]
    exact insertDict_nodup _ _ _ ih

theorem dictOf_keys_eq_firstKeys {κ ν : Type} [DecidableEq κ] (l : List (κ × ν)) :
    (dictOf l).map Prod.fst = firstKeys (l.map Prod.fst) := by
  induction l using List.reverseRecOn with
  | nil => simp [dictOf, firstKeys]
  | append_singleton l p ih =>
    rw [dictOf_append, insertDict_map_fst, ih,
      show (l ++ [p]).map Prod.fst = l.map Prod.fst ++ [p.1] by simp,
      firstKeys_append_singleton]

theorem dictOf_mem_getLast {κ ν : Type} [DecidableEq κ] (l : List (κ × ν))
    (kv : κ × ν) (h : kv ∈ dictOf l) :
    (l.filter fun p => p.1 = kv.1).getLast? = some kv := by
  obtain ⟨k0, v0⟩ := kv
  induction l using List.reverseRecOn with
  | nil => simp [dictOf] at h
  | append_singleton l q ih =>
    rw [dictOf_append] at h
    by_cases hk : k0 = q.1
    · have hv : v0 = q.2 := by
        rw [hk] at h
        exact (mem_insertDict_self (dictOf l) q.1 q.2 v0 (dictOf_keys_nodup l)).mp h
      rw [List.filter_append,
        show ([q].filter fun p => p.1 = (k0, v0).1) = [q] by simp [hk],
        List.getLast?_concat, hk, hv]
    · have hmem : (k0, v0) ∈ dictOf l :=
        (mem_insertDict_of_ne (dictOf l) q.2 v0 hk).mp h
      rw [List.filter_append,
        show ([q].filter fun p => p.1 = (k0, v0).1) = [] by
          simp
          exact fun hq => hk hq.symm,
        List.append_nil]
      exact ih hmem

/-- Every stored entry of the dict occurs in the input list. -/
theorem dictOf_entry_mem {κ ν : Type} [DecidableEq κ] (l : List (κ × ν))
    (kv : κ × ν) (h : kv ∈ dictOf l) : kv ∈ l :=
  (List.mem_filter.mp (List.mem_of_mem_getLast? (dictOf_mem_getLast l kv h))).1

/-- Entries built from `(m.name, m)` pairs keep that shape in the dict. -/
theorem js_entry_key (code : List Char) :
    ∀ kv ∈ dictOf ((jsLineMatches code).map fun m => (m.name, m)),
      kv.1 = kv.2.name := by
  intro kv hkv
  obtain ⟨m, _, hm⟩ := List.mem_map.mp (dictOf_entry_mem _ kv hkv)
  rw [← hm]

/-- The Scenario used against the dedup wording: two declarations of the
same function name with different parameters. -/
def dedupExampleCode : List Char :=
  "function foo(a) \x7b\n    return a;\n\x7d\nfunction foo(b) \x7b\n    return b;\n\x7d".toList

/-- Claim C6 counterexample: on two `foo` declarations (lines 1 and 4)
the extractor returns the record of the fourth line — the last
occurrence — not the first one claimed by the spec. -/
theorem js_dedup_counterexample :
    jsExtractFunctions dedupExampleCode = [⟨"foo".toList, 4, ["b".toList]⟩] ∧
      jsExtractFunctions dedupExampleCode ≠ [⟨"foo".toList, 1, ["a".toList]⟩] := by
  decide

/-- Claim C6 (amended): the three per-line patterns are tried in order
with the first match winning (this is `jsMatchLine` by construction), and
the result is deduplicated by name where each name keeps the position of
its first occurrence but the record of its last occurrence. -/
theorem js_extract_functions_amended (code : List Char) :
    ((jsExtractFunctions code).map FunctionFact.name).Nodup ∧
    (jsExtractFunctions code).map FunctionFact.name =
      firstKeys ((jsLineMatches code).map FunctionFact.name) ∧
    ∀ f ∈ jsExtractFunctions code,
      ((jsLineMatches code).filter fun m => m.name = f.name).getLast? = some f := by
  have hmapname : (jsExtractFunctions code).map FunctionFact.name =
      (dictOf ((jsLineMatches code).map fun m => (m.name, m))).map Prod.fst := by
    unfold jsExtractFunctions
    rw [List.map_map]
    exact List.map_congr_left fun kv hkv => (js_entry_key code kv hkv).symm
  refine ⟨?_, ?_, ?_⟩
  · rw [hmapname]
    exact dictOf_keys_nodup _
  · rw [hmapname, dictOf_keys_eq_firstKeys]
    congr 1
    rw [List.map_map]
    rfl
  · intro f hf
    unfold jsExtractFunctions at hf
    obtain ⟨kv, hkv, hsnd⟩ := List.mem_map.mp hf
    have hkey : kv.1 = f.name := by rw [js_entry_key code kv hkv, hsnd]
    have hlast := dictOf_mem_getLast _ kv hkv
    rw [hkey, List.filter_map, List.getLast?_map] at hlast
    obtain ⟨m0, hm0, hg⟩ := Option.map_eq_some'.mp hlast
    have hm0f : m0 = f := by
      have hsnd0 := congrArg Prod.snd hg
      simpa [hsnd] using hsnd0
    subst hm0f
    simpa [Function.comp] using hm0

/-- Claim C6 witness: the amended dedup behaviour instantiated on the
double-`foo` example. -/
theorem js_extract_functions_amended_witness :
    ((jsExtractFunctions dedupExampleCode).map FunctionFact.name).Nodup ∧
      ((jsLineMatches dedupExampleCode).filter
          (fun m => m.name = (⟨"foo".toList, 4, ["b".toList]⟩ : FunctionFact).name)).getLast? =
        some ⟨"foo".toList, 4, ["b".toList]⟩ :=
  ⟨(js_extract_functions_amended dedupExampleCode).1,
   (js_extract_functions_amended dedupExampleCode).2.2
     ⟨"foo".toList, 4, ["b".toList]⟩ (by decide)⟩

end Taggle
